import Mathlib

/-!
Verification development for the fast-forward memoization library.

The embedding models:
- the JSON-like runtime values handled by the library (`JVal`);
- `json-stable-stringify` (the key serializer dependency of `generateCacheKey`
  in `src/utils.ts`), including its canonical key sorting, its treatment of
  `undefined`, and its throwing behavior on self-referential structures;
- `generateCacheKey`, `parseCacheMode` and the mode resolution of `fastForward`;
- the in-memory backend (a JS `Map`) and the per-call cache state machine of
  the method wrapper returned by `fastForward` (`src/fast-forward.ts`);
- the file-system backend `delete`/`clear` (`src/filesystem-cache.ts`) over an
  explicit file-system state with failing removals.

JS numbers are modelled as integers (all inputs of interest are integral), and
self-referential argument structures, which cannot exist in an inductive type,
are modelled by the constructor `vCyclic`, standing for any value on which
`JSON.stringify`-style traversal throws.
-/

namespace FastForward

/-- JS runtime values as seen by the serializer and the cache. -/
inductive JVal where
  | vNull
  | vUndefined
  | vCyclic
  | vBool (b : Bool)
  | vNum (n : Int)
  | vStr (s : String)
  | vArr (elems : List JVal)
  | vObj (fields : List (String × JVal))

/-- Result of `json-stable-stringify` on one node: a string, the JS value
`undefined` (top-level `undefined` or functions), or a thrown error
(self-referential structures). -/
inductive SRes where
  | ok (s : String)
  | undefRes
  | err
  deriving DecidableEq

/-- JSON escaping of one character, as done by `JSON.stringify` for the
characters that occur in this development. -/
def escChar (c : Char) : String :=
  if c = '"' then "\\\"" else if c = '\\' then "\\\\" else String.singleton c

/-- JSON string literal rendering. -/
def jstr (s : String) : String :=
  "\"" ++ (s.data.foldr (fun c acc => escChar c ++ acc) "") ++ "\""

/-- Lexicographic at-most comparison on code units, the default JS string
comparison used by `Array.prototype.sort` over object keys. -/
def charsLe : List Char → List Char → Bool
  | [], _ => true
  | _ :: _, [] => false
  | a :: as, b :: bs =>
    if a.toNat < b.toNat then true
    else if b.toNat < a.toNat then false
    else charsLe as bs

/-- String at-most comparison by code units. -/
def keyLe (a b : String) : Bool := charsLe a.data b.data

/-- Insertion of a keyed pair into a key-sorted list, comparing only the
string key, as the stable `Array.prototype.sort` over object keys does. -/
def insertKeyed {α : Type} (x : String × α) : List (String × α) → List (String × α)
  | [] => [x]
  | y :: ys => if keyLe x.1 y.1 then x :: y :: ys else y :: insertKeyed x ys

/-- Stable sort of a keyed list by its string keys (insertion sort). -/
def sortKeyed {α : Type} : List (String × α) → List (String × α)
  | [] => []
  | x :: xs => insertKeyed x (sortKeyed xs)

/-- Rendering of a serialized object from its (sorted) key/value strings. -/
def mkObjStr (kvs : List (String × String)) : String :=
  "\x7b" ++ String.intercalate "," (kvs.map (fun kv => jstr kv.1 ++ ":" ++ kv.2)) ++ "\x7d"

mutual
/-- The `json-stable-stringify` dependency used by `generateCacheKey`:
object keys are sorted, array order is preserved, `undefined` entries of
arrays serialize as `null`, `undefined`-valued object properties are omitted,
and a self-referential structure anywhere makes the whole call throw
(`SRes.err`). Sorting an object by keys commutes with serializing its
values, so the sort is applied to the serialized pairs. -/
def serialize : JVal → SRes
  | .vNull => .ok "null"
  | .vUndefined => .undefRes
  | .vCyclic => .err
  | .vBool b => .ok (if b then "true" else "false")
  | .vNum n => .ok (toString n)
  | .vStr s => .ok (jstr s)
  | .vArr xs =>
    match serItems xs with
    | none => .err
    | some items => .ok ("[" ++ String.intercalate "," items ++ "]")
  | .vObj fs =>
    match serFields fs with
    | none => .err
    | some kvs => .ok (mkObjStr (sortKeyed kvs))

/-- Serialization of the items of an array: `undefined` items become
`"null"`, a throwing item propagates (`none`). -/
def serItems : List JVal → Option (List String)
  | [] => some []
  | x :: xs =>
    match serialize x, serItems xs with
    | .err, _ => none
    | _, none => none
    | .undefRes, some rest => some ("null" :: rest)
    | .ok s, some rest => some (s :: rest)

/-- Serialization of object properties: `undefined`-valued properties are
dropped, a throwing value propagates (`none`). -/
def serFields : List (String × JVal) → Option (List (String × String))
  | [] => some []
  | kv :: fs =>
    match serialize kv.2, serFields fs with
    | .err, _ => none
    | _, none => none
    | .undefRes, some rest => some rest
    | .ok s, some rest => some ((kv.1, s) :: rest)
end

mutual
/-- Canonicalization of a value up to object-property order: object fields
are sorted by key recursively, array order is preserved. Two values are
deeply equal up to object-key order exactly when their canonical forms are
equal. -/
def canon : JVal → JVal
  | .vArr xs => .vArr (canonItems xs)
  | .vObj fs => .vObj (sortKeyed (canonFields fs))
  | v => v

/-- Canonicalization of a list of array items. -/
def canonItems : List JVal → List JVal
  | [] => []
  | x :: xs => canon x :: canonItems xs

/-- Canonicalization of the values of object properties. -/
def canonFields : List (String × JVal) → List (String × JVal)
  | [] => []
  | kv :: fs => (kv.1, canon kv.2) :: canonFields fs
end

/-- Return type of a key transformer (`KeyComponents` in `src/types.ts`). -/
structure KeyComponents where
  method : String
  args : List JVal

/-- Caller-supplied key transformer (`KeyTransformer` in `src/types.ts`). -/
def KeyTransformer : Type := String → List JVal → KeyComponents

/-- The key generator of `src/utils.ts`: applies the optional transformer,
serializes the (transformed) argument list with `json-stable-stringify`, and
concatenates `method ++ ":" ++ serializedArgs`; if serialization throws the
whole call returns `undefined` (`none`). -/
def generateCacheKey (methodName : String) (args : List JVal)
    (keyTransformer : Option KeyTransformer) : Option String :=
  let comps : KeyComponents :=
    match keyTransformer with
    | some t => t methodName args
    | none => ⟨methodName, args⟩
  match serialize (.vArr comps.args) with
  | .ok s => some (comps.method ++ ":" ++ s)
  | _ => none

/-- The four cache modes of `src/types.ts` (`CacheMode`). -/
inductive CacheMode where
  | ON
  | OFF
  | UPDATE_ONLY
  | READ_ONLY
  deriving DecidableEq

/-- Enum string value of a cache mode, as in the TS `enum CacheMode`. -/
def cacheModeName : CacheMode → String
  | .ON => "ON"
  | .OFF => "OFF"
  | .UPDATE_ONLY => "UPDATE_ONLY"
  | .READ_ONLY => "READ_ONLY"

/-- Model of `String.prototype.toUpperCase` on ASCII. -/
def upChar (c : Char) : Char :=
  if 'a' ≤ c ∧ c ≤ 'z' then Char.ofNat (c.toNat - 32) else c

/-- Model of JS `toUpperCase` character-wise over the string. -/
def jsToUpper (s : String) : String := ⟨s.data.map upChar⟩

/-- Whitespace for the purposes of JS `trim`. -/
def isWSChar (c : Char) : Bool := c = ' ' || c = '\t' || c = '\n' || c = '\r'

/-- Model of `String.prototype.trim`. -/
def jsTrim (s : String) : String :=
  ⟨((s.data.dropWhile isWSChar).reverse.dropWhile isWSChar).reverse⟩

/-- The mode parser of `src/utils.ts` (`parseCacheMode`): empty or
whitespace-only or missing values parse to nothing; otherwise the value is
upper-cased, without trimming, and compared to the four enum strings. -/
def parseCacheMode (value : Option String) : Option CacheMode :=
  match value with
  | none => none
  | some v =>
    if v = "" then none
    else if jsTrim v = "" then none
    else
      let u := jsToUpper v
      if u = "OFF" then some .OFF
      else if u = "ON" then some .ON
      else if u = "UPDATE_ONLY" then some .UPDATE_ONLY
      else if u = "READ_ONLY" then some .READ_ONLY
      else none

/-- The mode resolution performed once per `fastForward` call
(`src/fast-forward.ts` lines 41-64): default `ON`, overridden by a parsed
environment signal, overridden by an explicit `options.mode`. -/
def resolveMode (explicitMode : Option CacheMode) (envSignal : Option String) : CacheMode :=
  let mode := CacheMode.ON
  let mode :=
    match parseCacheMode envSignal with
    | some m => m
    | none => mode
  match explicitMode with
  | some m => m
  | none => mode

/-- Values returned by a wrapped method or by the wrapper itself: a plain
synchronous value, a promise that resolves with a value, or a promise that
rejects with an error. -/
inductive RVal where
  | jval (v : JVal)
  | promiseResolved (v : JVal)
  | promiseRejected (e : String)

/-- The in-memory backend `InMemoryCache` (`src/in-memory-cache.ts`), a JS
`Map` modelled as an association list. A JS `Map` accepts `undefined` as a
key, and the wrapper can pass an `undefined` cache key through, so keys are
`Option String`. `set` places the updated binding first; `get`, `has` and
`delete` observe only the mapping, so the insertion-order difference from a
real `Map` is unobservable in this development. -/
structure Mem where
  entries : List (Option String × JVal)

/-- A fresh, empty in-memory backend. -/
def Mem.empty : Mem := ⟨[]⟩

/-- Map lookup: the stored value, if present. -/
def Mem.get (m : Mem) (k : Option String) : Option JVal :=
  (m.entries.find? (fun e => decide (e.1 = k))).map (·.2)

/-- Map membership. -/
def Mem.has (m : Mem) (k : Option String) : Bool :=
  m.entries.any (fun e => decide (e.1 = k))

/-- Map update: replaces any previous binding of the key. -/
def Mem.set (m : Mem) (k : Option String) (v : JVal) : Mem :=
  ⟨(k, v) :: m.entries.filter (fun e => !(decide (e.1 = k)))⟩

/-- Map deletion, returning whether a binding existed. -/
def Mem.del (m : Mem) (k : Option String) : Bool × Mem :=
  (m.has k, ⟨m.entries.filter (fun e => !(decide (e.1 = k)))⟩)

/-- Map clearing. -/
def Mem.clearAll (_m : Mem) : Mem := ⟨[]⟩

/-- One backend interaction performed by the wrapper, for tracing which
operations of the `Cache` interface a call used. -/
inductive CacheOp where
  | hasOp (k : Option String)
  | getOp (k : Option String)
  | setOp (k : Option String) (v : JVal)
  | delOp (k : Option String)
  | clrOp

/-- The reserved marker field of cached resolved-promise entries. -/
def promiseTag : String := "__ff_promise_result"

/-- The tagged entry `\x7b __ff_promise_result: true, value \x7d` stored for a
resolved promise (`src/fast-forward.ts` lines 123-126). -/
def taggedEntry (v : JVal) : JVal :=
  .vObj [(promiseTag, .vBool true), ("value", v)]

/-- JS property access `obj[k]` on an object: the value, or `undefined` when
the property is missing. -/
def objLookup (fs : List (String × JVal)) (k : String) : JVal :=
  match fs.find? (fun e => decide (e.1 = k)) with
  | some e => e.2
  | none => .vUndefined

/-- The `isObject` helper of `src/utils.ts`: non-null, of object type, and
not an array. -/
def isObjectVal : JVal → Bool
  | .vObj _ => true
  | _ => false

/-- What the wrapper returns for a cache hit (`src/fast-forward.ts` lines
94-106): non-objects are returned verbatim; an object carrying the promise
marker is rehydrated into a fresh resolved promise around its `value` field;
other objects are returned verbatim. -/
def readCachedResult (cached : JVal) : RVal :=
  match cached with
  | .vObj fs =>
    match objLookup fs promiseTag with
    | .vBool true => .promiseResolved (objLookup fs "value")
    | _ => .jval (.vObj fs)
  | v => .jval v

/-- Whether a stored value would be taken for a tagged resolved-promise
entry by the hit path (the strict `=== true` check of line 100). -/
def isPromiseTagged : JVal → Bool
  | .vObj fs =>
    match objLookup fs promiseTag with
    | .vBool true => true
    | _ => false
  | _ => false

/-- Result of one invocation of a wrapped method: the value handed back to
the caller, the backend state afterwards (including the effect of the
store-on-resolution continuation for promise results), whether the
underlying operation was invoked, and the trace of backend operations. -/
structure CallOut where
  ret : RVal
  cache : Mem
  invoked : Bool
  ops : List CacheOp

/-- The per-call cache state machine of the wrapper closure
(`src/fast-forward.ts` lines 87-135), for an already-computed cache key:
`OFF` executes directly; `ON`/`READ_ONLY` consult `has` and serve a hit via
`get`; a `READ_ONLY` miss re-tests `has` and returns `undefined` without
invoking; otherwise the underlying method runs and, in `ON`/`UPDATE_ONLY`,
a synchronous result is stored as-is while a promise stores a tagged entry
on resolution only (rejections store nothing). -/
def cacheMachine (mode : CacheMode) (cache : Mem) (cacheKey : Option String)
    (method : List JVal → RVal) (args : List JVal) : CallOut :=
  if mode = .OFF then
    { ret := method args, cache := cache, invoked := true, ops := [] }
  else
    let consultOps : List CacheOp :=
      if mode = .ON ∨ mode = .READ_ONLY then [.hasOp cacheKey] else []
    if (mode = .ON ∨ mode = .READ_ONLY) ∧ cache.has cacheKey = true then
      { ret := readCachedResult ((cache.get cacheKey).getD .vUndefined),
        cache := cache, invoked := false,
        ops := consultOps ++ [.getOp cacheKey] }
    else if mode = .READ_ONLY ∧ cache.has cacheKey = false then
      { ret := .jval .vUndefined, cache := cache, invoked := false,
        ops := consultOps ++ [.hasOp cacheKey] }
    else
      let result := method args
      if mode = .ON ∨ mode = .UPDATE_ONLY then
        match result with
        | .promiseResolved v =>
          { ret := .promiseResolved v, cache := cache.set cacheKey (taggedEntry v),
            invoked := true, ops := consultOps ++ [.setOp cacheKey (taggedEntry v)] }
        | .promiseRejected e =>
          { ret := .promiseRejected e, cache := cache, invoked := true, ops := consultOps }
        | .jval v =>
          { ret := .jval v, cache := cache.set cacheKey v, invoked := true,
            ops := consultOps ++ [.setOp cacheKey v] }
      else
        { ret := result, cache := cache, invoked := true, ops := consultOps }

/-- One invocation of a method wrapped by the `fastForward` under `src/`:
the cache key is generated with no transformer, and even a failed key
(`undefined`) is passed through to the backend. -/
def callWrapped (mode : CacheMode) (cache : Mem) (methodName : String)
    (method : List JVal → RVal) (args : List JVal) : CallOut :=
  cacheMachine mode cache (generateCacheKey methodName args none) method args

/-- Modelled from the spec: one invocation of a method wrapped by the
current `fastForward` with support for the `key` transformer option. The
`fast-forward.ts` under `src/` is an older snapshot without this wiring,
while the tests, examples, `index.ts` exports and ARCHITECTURE.md all use
it. Per the spec, the transformer is applied before key generation, and a
`NoKey` result skips every cache interaction, directly invoking and
returning. -/
def callWrappedK (mode : CacheMode) (cache : Mem) (methodName : String)
    (keyTransformer : Option KeyTransformer)
    (method : List JVal → RVal) (args : List JVal) : CallOut :=
  match generateCacheKey methodName args keyTransformer with
  | none => { ret := method args, cache := cache, invoked := true, ops := [] }
  | some k => cacheMachine mode cache (some k) method args

/-- Aggregate outcome of a sequence of wrapped calls. -/
structure RunOut where
  cache : Mem
  count : Nat
  rets : List RVal
  ops : List CacheOp

/-- A sequence of invocations of one wrapped method against one backend.
The underlying operation may observe how many times it has been invoked so
far (modelling methods that close over mutable state), and `count` counts
its invocations. -/
def runCalls (mode : CacheMode) (methodName : String) (op : Nat → List JVal → RVal) :
    List (List JVal) → Mem → Nat → RunOut
  | [], cache, count => { cache := cache, count := count, rets := [], ops := [] }
  | args :: rest, cache, count =>
    let out := callWrapped mode cache methodName (op count) args
    let count2 := count + (if out.invoked then 1 else 0)
    let r := runCalls mode methodName op rest out.cache count2
    { cache := r.cache, count := r.count, rets := out.ret :: r.rets, ops := out.ops ++ r.ops }

/-- State of the namespace directory used by one `FileSystemCache`
instance: the files it contains, the files whose removal fails (for
example, the directory lacks write permission for them), and whether the
directory exists. `mkdirSync` with `recursive` is modelled as always
succeeding. -/
structure FSState where
  files : List String
  stuck : List String
  dirLive : Bool

/-- Filename for a key (`getFilePath`): the SHA-256 hex digest is modelled
as an injective encoding of the key. -/
def hashName (key : String) : String := "sha256-" ++ key ++ ".json"

/-- Model of `fs.unlinkSync`: fails on files whose removal is blocked. -/
def unlinkFS (st : FSState) (p : String) : Except Unit FSState :=
  if st.stuck.contains p then .error () else .ok { st with files := st.files.erase p }

/-- `FileSystemCache.delete` (`src/filesystem-cache.ts` lines 113-122):
checks `existsSync`, then calls `unlinkSync` with no try/catch, so a failed
removal propagates the exception. -/
def fsDelete (st : FSState) (key : String) : Except Unit (Bool × FSState) :=
  let p := hashName key
  if st.files.contains p then
    match unlinkFS st p with
    | .error e => .error e
    | .ok st2 => .ok (true, st2)
  else
    .ok (false, st)

/-- The file-removal loop of `FileSystemCache.clear` (lines 136-143): each
regular file is unlinked in turn; the first failing removal throws,
abandoning the loop with the removals so far kept. -/
def removeLoop : FSState → List String → Except FSState FSState
  | st, [] => .ok st
  | st, f :: rest =>
    match unlinkFS st f with
    | .error _ => .error st
    | .ok st2 => removeLoop st2 rest

/-- `FileSystemCache.clear` (lines 128-166): inside a catch-all, remove the
files of the namespace directory, try `rmdirSync` swallowing its failure,
and recreate the directory; the outer catch also recreates the directory,
so the method never raises. -/
def fsClear (st : FSState) : FSState :=
  let attempt : Except FSState FSState :=
    if st.dirLive then
      match removeLoop st st.files with
      | .error stFail => .error stFail
      | .ok st2 =>
        let st3 := if st2.files.isEmpty then { st2 with dirLive := false } else st2
        .ok { st3 with dirLive := true }
    else
      .ok { st with dirLive := true }
  match attempt with
  | .ok st2 => st2
  | .error stFail => { stFail with dirLive := true }

/-- The code-unit comparison is total. -/
def charsLe_total : ∀ as bs, charsLe as bs = false → charsLe bs as = true
  | [], _, h => by simp [charsLe] at h
  | _ :: _, [], _ => rfl
  | a :: as, b :: bs, h => by
    simp only [charsLe] at h ⊢
    rcases Nat.lt_trichotomy a.toNat b.toNat with hab | hab | hab
    · rw [if_pos hab] at h
      exact absurd h (by simp)
    · rw [if_neg (by omega), if_neg (by omega)] at h
      rw [if_neg (by omega), if_neg (by omega)]
      exact charsLe_total as bs h
    · rw [if_pos hab]

/-- The code-unit comparison is transitive. -/
def charsLe_trans : ∀ as bs cs, charsLe as bs = true → charsLe bs cs = true →
    charsLe as cs = true
  | [], _, _, _, _ => rfl
  | _ :: _, [], _, h, _ => by simp [charsLe] at h
  | _ :: _, _ :: _, [], _, h2 => by simp [charsLe] at h2
  | a :: as, b :: bs, c :: cs, h1, h2 => by
    simp only [charsLe] at h1 h2 ⊢
    rcases Nat.lt_trichotomy a.toNat b.toNat with hab | hab | hab
    · rcases Nat.lt_trichotomy b.toNat c.toNat with hbc | hbc | hbc
      · rw [if_pos (by omega)]
      · rw [if_pos (by omega)]
      · rw [if_neg (by omega), if_pos hbc] at h2
        exact absurd h2 (by simp)
    · rcases Nat.lt_trichotomy b.toNat c.toNat with hbc | hbc | hbc
      · rw [if_pos (by omega)]
      · rw [if_neg (by omega), if_neg (by omega)] at h1 h2 ⊢
        exact charsLe_trans as bs cs h1 h2
      · rw [if_neg (by omega), if_pos hbc] at h2
        exact absurd h2 (by simp)
    · rw [if_neg (by omega), if_pos hab] at h1
      exact absurd h1 (by simp)

/-- The string comparison is total. -/
def keyLe_total {a b : String} (h : keyLe a b = false) : keyLe b a = true :=
  charsLe_total a.data b.data h

/-- The string comparison is transitive. -/
def keyLe_trans {a b c : String} (h1 : keyLe a b = true) (h2 : keyLe b c = true) :
    keyLe a c = true :=
  charsLe_trans a.data b.data c.data h1 h2

/-- Lower bound of a key below every key of a keyed list. -/
def keyLB {α : Type} (k : String) (l : List (String × α)) : Prop :=
  ∀ p ∈ l, keyLe k p.1 = true

/-- Sortedness of a keyed list by its string keys. -/
def keySorted {α : Type} : List (String × α) → Prop
  | [] => True
  | x :: xs => keyLB x.1 xs ∧ keySorted xs

/-- Membership in an insertion is membership in the input or being the
inserted element. -/
def mem_insertKeyed {α : Type} (x y : String × α) :
    (l : List (String × α)) → (y ∈ insertKeyed x l ↔ y = x ∨ y ∈ l)
  | [] => by simp [insertKeyed]
  | z :: zs => by
    by_cases h : keyLe x.1 z.1 = true <;>
      simp [insertKeyed, h, mem_insertKeyed x y zs] <;> tauto

/-- A lower bound weakens. -/
def keyLB_mono {α : Type} {k k2 : String} {l : List (String × α)}
    (hk : keyLe k k2 = true) (h : keyLB k2 l) : keyLB k l :=
  fun p hp => keyLe_trans hk (h p hp)

/-- Inserting below an upper-bounded list keeps the bound. -/
def keyLB_insertKeyed {α : Type} {k : String} {x : String × α} {l : List (String × α)}
    (h : keyLB k l) (hx : keyLe k x.1 = true) : keyLB k (insertKeyed x l) := by
  intro p hp
  rcases (mem_insertKeyed x p l).1 hp with h1 | h2
  · exact h1 ▸ hx
  · exact h p h2

/-- Insertion preserves sortedness. -/
def sorted_insertKeyed {α : Type} (x : String × α) :
    (l : List (String × α)) → keySorted l → keySorted (insertKeyed x l)
  | [], _ => by simp [insertKeyed, keySorted, keyLB]
  | z :: zs, hs => by
    by_cases h : keyLe x.1 z.1 = true
    · simp only [insertKeyed, h, if_true, keySorted]
      refine ⟨?_, hs⟩
      intro p hp
      rcases List.mem_cons.1 hp with h1 | h2
      · exact h1 ▸ h
      · exact keyLe_trans h (hs.1 p h2)
    · simp only [insertKeyed, h, if_false, keySorted]
      exact ⟨keyLB_insertKeyed hs.1 (keyLe_total (by simpa using h)),
        sorted_insertKeyed x zs hs.2⟩

/-- Insertion sort by keys produces a key-sorted list. -/
def sorted_sortKeyed {α : Type} : (l : List (String × α)) → keySorted (sortKeyed l)
  | [] => trivial
  | x :: xs => sorted_insertKeyed x (sortKeyed xs) (sorted_sortKeyed xs)

/-- Inserting below every key of the list prepends. -/
def insertKeyed_of_lb {α : Type} {x : String × α} :
    (l : List (String × α)) → keyLB x.1 l → insertKeyed x l = x :: l
  | [], _ => rfl
  | y :: ys, h => by
    have := h y (List.mem_cons_self y ys)
    simp [insertKeyed, this]

/-- Sorting a sorted keyed list is the identity. -/
def sortKeyed_of_sorted {α : Type} :
    (l : List (String × α)) → keySorted l → sortKeyed l = l
  | [], _ => rfl
  | x :: xs, hs => by
    simp [sortKeyed, sortKeyed_of_sorted xs hs.2, insertKeyed_of_lb xs hs.1]

/-- The keyed sort is idempotent. -/
def sortKeyed_idem {α : Type} (l : List (String × α)) :
    sortKeyed (sortKeyed l) = sortKeyed l :=
  sortKeyed_of_sorted (sortKeyed l) (sorted_sortKeyed l)

/-- Any-predicate over an insertion. -/
def any_insertKeyed {α : Type} (x : String × α) (p : String × α → Bool) :
    (l : List (String × α)) → (insertKeyed x l).any p = (p x || l.any p)
  | [] => by simp [insertKeyed]
  | z :: zs => by
    by_cases h : keyLe x.1 z.1 = true
    · simp [insertKeyed, h]
    · simp [insertKeyed, h, any_insertKeyed x p zs]
      cases p x <;> cases p z <;> simp

/-- Any-predicate is invariant under the keyed sort. -/
def any_sortKeyed {α : Type} (p : String × α → Bool) :
    (l : List (String × α)) → (sortKeyed l).any p = l.any p
  | [] => rfl
  | x :: xs => by
    simp [sortKeyed, any_insertKeyed, any_sortKeyed p xs]

/-- Serialization of one object property into its key/value strings:
nothing for a dropped (`undefined`-valued) property. -/
def serInto (kv : String × JVal) : Option (String × String) :=
  match serialize kv.2 with
  | .ok s => some (kv.1, s)
  | _ => none

/-- Whether some property value of the list throws on serialization. -/
def hasErrF (fs : List (String × JVal)) : Bool :=
  fs.any (fun kv => decide (serialize kv.2 = .err))

/-- Unfolding of the error test over a property list. -/
def hasErrF_cons (kv : String × JVal) (fs : List (String × JVal)) :
    hasErrF (kv :: fs) = (decide (serialize kv.2 = .err) || hasErrF fs) := by
  simp [hasErrF, List.any_cons]

/-- Characterization of `serFields`: a throwing value anywhere yields
nothing, otherwise the kept properties in order. -/
def serFields_eq : ∀ fs, serFields fs = if hasErrF fs then none else some (fs.filterMap serInto)
  | [] => by simp [serFields, hasErrF]
  | kv :: fs => by
    have ih := serFields_eq fs
    cases h : serialize kv.2 <;> by_cases he : hasErrF fs = true <;>
      simp [serFields, ih, hasErrF_cons, h, he, List.filterMap_cons, serInto]

/-- The property serializer preserves keys. -/
def serInto_key {kv : String × JVal} {p : String × String}
    (h : serInto kv = some p) : p.1 = kv.1 := by
  unfold serInto at h
  cases hs : serialize kv.2 <;> simp [hs] at h <;> simp [← h]

/-- A key lower bound survives the property serialization. -/
def keyLB_filterMap {k : String} {l : List (String × JVal)}
    (h : keyLB k l) : keyLB k (l.filterMap serInto) := by
  intro p hp
  rcases List.mem_filterMap.1 hp with ⟨kv, hkv, hser⟩
  rw [serInto_key hser]
  exact h kv hkv

/-- Inserting a dropped property does not change the serialized
properties. -/
def filterMap_insertKeyed_none {x : String × JVal} (hx : serInto x = none) :
    ∀ l : List (String × JVal),
      (insertKeyed x l).filterMap serInto = l.filterMap serInto
  | [] => by simp [insertKeyed, List.filterMap_cons, hx]
  | y :: ys => by
    by_cases h : keyLe x.1 y.1 = true <;>
      simp [insertKeyed, h, List.filterMap_cons, hx, filterMap_insertKeyed_none hx ys]

/-- Serializing the properties commutes with inserting a kept property
into a key-sorted list. -/
def filterMap_insertKeyed_some {x : String × JVal} {p : String × String}
    (hx : serInto x = some p) :
    ∀ l : List (String × JVal), keySorted l →
      (insertKeyed x l).filterMap serInto = insertKeyed p (l.filterMap serInto)
  | [], _ => by simp [insertKeyed, List.filterMap_cons, hx]
  | y :: ys, hs => by
    have hpx : p.1 = x.1 := serInto_key hx
    by_cases h : keyLe x.1 y.1 = true
    · cases hy : serInto y with
      | some q =>
        have hqy : q.1 = y.1 := serInto_key hy
        have hpq : keyLe p.1 q.1 = true := by rw [hpx, hqy]; exact h
        simp [insertKeyed, h, List.filterMap_cons, hx, hy, hpq]
      | none =>
        have hlb : keyLB p.1 (ys.filterMap serInto) := by
          rw [hpx]
          exact keyLB_mono h (keyLB_filterMap hs.1)
        simp [insertKeyed, h, List.filterMap_cons, hx, hy,
          insertKeyed_of_lb _ hlb]
    · cases hy : serInto y with
      | some q =>
        have hqy : q.1 = y.1 := serInto_key hy
        have hpq : ¬ keyLe p.1 q.1 = true := by rw [hpx, hqy]; exact h
        simp [insertKeyed, h, List.filterMap_cons, hy, hpq,
          filterMap_insertKeyed_some hx ys hs.2]
      | none =>
        simp [insertKeyed, h, List.filterMap_cons, hy,
          filterMap_insertKeyed_some hx ys hs.2]

/-- Serializing the properties commutes with the keyed sort. -/
def filterMap_sortKeyed : ∀ l : List (String × JVal),
    (sortKeyed l).filterMap serInto = sortKeyed (l.filterMap serInto)
  | [] => rfl
  | x :: xs => by
    cases hx : serInto x with
    | none =>
      simp [sortKeyed, List.filterMap_cons, hx,
        filterMap_insertKeyed_none hx (sortKeyed xs), filterMap_sortKeyed xs]
    | some p =>
      simp [sortKeyed, List.filterMap_cons, hx,
        filterMap_insertKeyed_some hx (sortKeyed xs) (sorted_sortKeyed xs),
        filterMap_sortKeyed xs]

/-- Error detection is invariant under the keyed sort. -/
def hasErrF_sortKeyed (l : List (String × JVal)) :
    hasErrF (sortKeyed l) = hasErrF l :=
  any_sortKeyed _ l

/-- Sorting the properties of an object before serializing does not change
the serialization. -/
def serialize_vObj_sortKeyed (fs : List (String × JVal)) :
    serialize (.vObj (sortKeyed fs)) = serialize (.vObj fs) := by
  by_cases he : hasErrF fs = true <;>
    simp [serialize, serFields_eq, hasErrF_sortKeyed, he,
      filterMap_sortKeyed, sortKeyed_idem]

mutual
/-- Serialization factors through canonicalization: recursively sorting
object keys first changes nothing, since the serializer sorts keys itself. -/
def serialize_canon : ∀ v, serialize (canon v) = serialize v
  | .vNull => rfl
  | .vUndefined => rfl
  | .vCyclic => rfl
  | .vBool _ => rfl
  | .vNum _ => rfl
  | .vStr _ => rfl
  | .vArr xs => by
    have h := serItems_canonItems xs
    simp [canon, serialize, h]
  | .vObj fs => by
    have h := serFields_canonFields fs
    calc serialize (canon (.vObj fs))
        = serialize (.vObj (sortKeyed (canonFields fs))) := by simp [canon]
      _ = serialize (.vObj (canonFields fs)) := serialize_vObj_sortKeyed _
      _ = serialize (.vObj fs) := by simp [serialize, h]

/-- Item serialization is invariant under canonicalization. -/
def serItems_canonItems : ∀ xs, serItems (canonItems xs) = serItems xs
  | [] => rfl
  | x :: xs => by
    have h1 := serialize_canon x
    have h2 := serItems_canonItems xs
    simp [canonItems, serItems, h1, h2]

/-- Property serialization is invariant under value canonicalization. -/
def serFields_canonFields : ∀ fs, serFields (canonFields fs) = serFields fs
  | [] => rfl
  | kv :: fs => by
    have h1 := serialize_canon kv.2
    have h2 := serFields_canonFields fs
    simp [canonFields, serFields, h1, h2]
end

/-- A fresh backend contains nothing. -/
def Mem.empty_has (k : Option String) : Mem.empty.has k = false := rfl

/-- Lookup after storing the same key. -/
def Mem.get_set_self (m : Mem) (k : Option String) (v : JVal) :
    (m.set k v).get k = some v := by
  simp [Mem.get, Mem.set]

/-- Membership after storing the same key. -/
def Mem.has_set_self (m : Mem) (k : Option String) (v : JVal) :
    (m.set k v).has k = true := by
  simp [Mem.has, Mem.set]

/-- A successful lookup implies membership. -/
def Mem.has_of_get {m : Mem} {k : Option String} {v : JVal}
    (h : m.get k = some v) : m.has k = true := by
  unfold Mem.get at h
  cases hf : m.entries.find? (fun e => decide (e.1 = k)) with
  | none => rw [hf] at h; simp at h
  | some e =>
    have hm := List.mem_of_find?_eq_some hf
    have hp := List.find?_some hf
    simp only [Mem.has, List.any_eq_true]
    exact ⟨e, hm, hp⟩

/-- A value without the promise marker is served verbatim on a hit. -/
def readCached_plain : ∀ v, isPromiseTagged v = false → readCachedResult v = .jval v := by
  intro v h
  cases v <;> simp only [readCachedResult]
  case vObj fs =>
    simp only [isPromiseTagged] at h
    cases hl : objLookup fs promiseTag with
    | vBool b => cases b <;> simp_all
    | _ => simp_all

/-- Whether a traced backend operation is a write. -/
def isWrite : CacheOp → Bool
  | .setOp _ _ => true
  | _ => false

/-- Whether a traced backend operation is one of `has`, `get`, `set` (so
neither `delete` nor `clear`). -/
def opKept : CacheOp → Bool
  | .delOp _ => false
  | .clrOp => false
  | _ => true

/-- Mode `OFF` executes directly with no backend interaction. -/
def cacheMachine_off (cache : Mem) (k : Option String)
    (method : List JVal → RVal) (args : List JVal) :
    cacheMachine .OFF cache k method args =
      { ret := method args, cache := cache, invoked := true, ops := [] } := by
  simp [cacheMachine]

/-- Mode `UPDATE_ONLY` on a synchronous result: execute and store, without
consulting. -/
def cacheMachine_upd_sync (cache : Mem) (k : Option String)
    (method : List JVal → RVal) (args : List JVal) (w : JVal)
    (hm : method args = .jval w) :
    cacheMachine .UPDATE_ONLY cache k method args =
      { ret := .jval w, cache := cache.set k w, invoked := true,
        ops := [.setOp k w] } := by
  simp [cacheMachine, hm]

/-- Mode `ON` on a miss with a synchronous result: consult, execute,
store. -/
def cacheMachine_on_miss_sync (cache : Mem) (k : Option String)
    (method : List JVal → RVal) (args : List JVal) (w : JVal)
    (hmiss : cache.has k = false) (hm : method args = .jval w) :
    cacheMachine .ON cache k method args =
      { ret := .jval w, cache := cache.set k w, invoked := true,
        ops := [.hasOp k, .setOp k w] } := by
  simp [cacheMachine, hmiss, hm]

/-- Mode `ON` on a miss with a rejecting promise: consult, execute, store
nothing. -/
def cacheMachine_on_miss_rej (cache : Mem) (k : Option String)
    (method : List JVal → RVal) (args : List JVal) (e : String)
    (hmiss : cache.has k = false) (hm : method args = .promiseRejected e) :
    cacheMachine .ON cache k method args =
      { ret := .promiseRejected e, cache := cache, invoked := true,
        ops := [.hasOp k] } := by
  simp [cacheMachine, hmiss, hm]

/-- Mode `ON` on a hit: consult and serve from the backend without
invoking. -/
def cacheMachine_on_hit {cache : Mem} {k : Option String} {v : JVal}
    (method : List JVal → RVal) (args : List JVal)
    (hget : cache.get k = some v) :
    cacheMachine .ON cache k method args =
      { ret := readCachedResult v, cache := cache, invoked := false,
        ops := [.hasOp k, .getOp k] } := by
  have hhas := Mem.has_of_get hget
  simp [cacheMachine, hhas, hget]

/-- Mode `READ_ONLY` on a miss: consult twice, return `undefined`, never
invoke. -/
def cacheMachine_ro_miss {cache : Mem} {k : Option String}
    (method : List JVal → RVal) (args : List JVal)
    (hmiss : cache.has k = false) :
    cacheMachine .READ_ONLY cache k method args =
      { ret := .jval .vUndefined, cache := cache, invoked := false,
        ops := [.hasOp k, .hasOp k] } := by
  simp [cacheMachine, hmiss]

/-- Mode `READ_ONLY` on a hit: consult and serve without invoking. -/
def cacheMachine_ro_hit {cache : Mem} {k : Option String} {v : JVal}
    (method : List JVal → RVal) (args : List JVal)
    (hget : cache.get k = some v) :
    cacheMachine .READ_ONLY cache k method args =
      { ret := readCachedResult v, cache := cache, invoked := false,
        ops := [.hasOp k, .getOp k] } := by
  have hhas := Mem.has_of_get hget
  simp [cacheMachine, hhas, hget]

/-- Mode `OFF` over any number of identical calls: every call invokes, the
backend is never touched. -/
def runCalls_off : ∀ (N : Nat) (name : String) (op : Nat → List JVal → RVal)
    (args : List JVal) (cache : Mem) (count : Nat),
    (runCalls .OFF name op (List.replicate N args) cache count).count = count + N ∧
    (runCalls .OFF name op (List.replicate N args) cache count).cache = cache ∧
    (runCalls .OFF name op (List.replicate N args) cache count).ops = []
  | 0, name, op, args, cache, count => by simp [runCalls]
  | N + 1, name, op, args, cache, count => by
    have ih := runCalls_off N name op args cache (count + 1)
    simp only [List.replicate_succ, runCalls, callWrapped, cacheMachine_off]
    refine ⟨?_, ih.2.1, by simp [ih.2.2]⟩
    simp [ih.1]
    omega

/-- Mode `UPDATE_ONLY` over identical synchronous calls: every call
invokes and stores, and the key ends bound to the last-written value. -/
def runCalls_upd : ∀ (N : Nat) (name : String) (f : Nat → JVal)
    (args : List JVal) (cache : Mem) (count : Nat),
    (runCalls .UPDATE_ONLY name (fun i _ => .jval (f i))
        (List.replicate (N + 1) args) cache count).count = count + N + 1 ∧
    (runCalls .UPDATE_ONLY name (fun i _ => .jval (f i))
          (List.replicate (N + 1) args) cache count).cache.get
        (generateCacheKey name args none) = some (f (count + N))
  | 0, name, f, args, cache, count => by
    have hcall := cacheMachine_upd_sync cache (generateCacheKey name args none)
      (fun _ => RVal.jval (f count)) args (f count) rfl
    simp [List.replicate, runCalls, callWrapped, hcall, Mem.get_set_self]
  | N + 1, name, f, args, cache, count => by
    have hcall := cacheMachine_upd_sync cache (generateCacheKey name args none)
      (fun _ => RVal.jval (f count)) args (f count) rfl
    have ih := runCalls_upd N name f args
      (cache.set (generateCacheKey name args none) (f count)) (count + 1)
    have harith : count + 1 + N = count + (N + 1) := by omega
    rw [harith] at ih
    rw [List.replicate_succ, runCalls]
    simp [callWrapped, hcall, ih.1, ih.2]
    try omega

/-- Mode `ON` with an operation that always rejects, against a backend not
holding the key: every call invokes, every call rejects, nothing is ever
stored. -/
def runCalls_rej_on : ∀ (N : Nat) (name : String) (e : String)
    (args : List JVal) (cache : Mem) (count : Nat),
    cache.has (generateCacheKey name args none) = false →
    (runCalls .ON name (fun _ _ => .promiseRejected e)
        (List.replicate N args) cache count).count = count + N ∧
    (runCalls .ON name (fun _ _ => .promiseRejected e)
        (List.replicate N args) cache count).cache = cache ∧
    (runCalls .ON name (fun _ _ => .promiseRejected e)
        (List.replicate N args) cache count).rets
      = List.replicate N (.promiseRejected e)
  | 0, name, e, args, cache, count, _ => by simp [runCalls]
  | N + 1, name, e, args, cache, count, hmiss => by
    have hcall := cacheMachine_on_miss_rej cache (generateCacheKey name args none)
      (fun _ => RVal.promiseRejected e) args e hmiss rfl
    have ih := runCalls_rej_on N name e args cache (count + 1) hmiss
    simp only [List.replicate_succ, runCalls, callWrapped, hcall]
    refine ⟨?_, ih.2.1, by simp [ih.2.2]⟩
    simp [ih.1]
    omega

/-- In every mode, a call whose underlying operation rejects leaves the
backend unchanged and writes nothing. -/
def callWrapped_rej_preserves (mode : CacheMode) (cache : Mem) (name : String)
    (e : String) (args : List JVal) :
    (callWrapped mode cache name (fun _ => .promiseRejected e) args).cache = cache ∧
    ((callWrapped mode cache name (fun _ => .promiseRejected e) args).ops.all
        (fun o => !isWrite o)) = true := by
  cases mode <;>
    by_cases h : cache.has (generateCacheKey name args none) = true <;>
      simp [callWrapped, cacheMachine, h, isWrite]

/-- Every backend operation of one wrapped call is `has`, `get` or `set`. -/
def callWrapped_ops_kept (mode : CacheMode) (cache : Mem) (name : String)
    (method : List JVal → RVal) (args : List JVal) :
    ((callWrapped mode cache name method args).ops.all opKept) = true := by
  cases mode <;>
    by_cases h : cache.has (generateCacheKey name args none) = true <;>
      cases hm : method args <;>
        simp [callWrapped, cacheMachine, h, hm, opKept]

/-- Every backend operation of a sequence of wrapped calls is `has`, `get`
or `set`. -/
def runCalls_ops_kept : ∀ (calls : List (List JVal)) (mode : CacheMode)
    (name : String) (op : Nat → List JVal → RVal) (cache : Mem) (count : Nat),
    ((runCalls mode name op calls cache count).ops.all opKept) = true
  | [], _, _, _, _, _ => rfl
  | args :: rest, mode, name, op, cache, count => by
    simp [runCalls, List.all_append, callWrapped_ops_kept,
      runCalls_ops_kept rest mode name op _ _]

/-- The concrete adder of end-to-end scenario 1: `add(a, b) = a + b`. -/
def addOp : Nat → List JVal → RVal
  | _, [.vNum a, .vNum b] => .jval (.vNum (a + b))
  | _, _ => .jval .vUndefined


/-- C1: for every invocation whose cache key cannot be generated (the
NoKey sentinel, for example self-referential argument structures), the
wrapper performs no cache interaction at all — no has, get or set — and
simply invokes the underlying operation and returns its result, leaving
the backend unchanged, in every mode. -/
theorem c1_nokey_skips_cache (mode : CacheMode) (cache : Mem) (name : String)
    (kt : Option KeyTransformer) (method : List JVal → RVal) (args : List JVal)
    (h : generateCacheKey name args kt = none) :
    callWrappedK mode cache name kt method args =
      { ret := method args, cache := cache, invoked := true, ops := [] } := by
  simp [callWrappedK, h]

/-- Witness for C1 at a concrete self-referential argument. -/
theorem c1_nokey_skips_cache_witness :
    generateCacheKey "m" [JVal.vCyclic] none = none ∧
    callWrappedK .ON Mem.empty "m" none (fun _ => .jval .vNull) [JVal.vCyclic] =
      { ret := .jval .vNull, cache := Mem.empty, invoked := true, ops := [] } :=
  ⟨rfl, c1_nokey_skips_cache .ON Mem.empty "m" none (fun _ => .jval .vNull)
    [JVal.vCyclic] rfl⟩

/-- C2: the wrapper applies the caller-supplied key transform before key
generation; two calls whose argument lists the transform maps to the same
key components hit the same cache entry, so the underlying operation is
invoked only once and both calls return the same value. -/
theorem c2_key_transform_shared_entry (name : String) (t : KeyTransformer)
    (a1 a2 : List JVal) (method : List JVal → RVal) (w : JVal) (k : String)
    (hsame : t name a1 = t name a2)
    (hkey : generateCacheKey name a1 (some t) = some k)
    (hm : method a1 = .jval w)
    (htag : isPromiseTagged w = false) :
    (callWrappedK .ON Mem.empty name (some t) method a1).invoked = true ∧
    (callWrappedK .ON (callWrappedK .ON Mem.empty name (some t) method a1).cache
        name (some t) method a2).invoked = false ∧
    (callWrappedK .ON (callWrappedK .ON Mem.empty name (some t) method a1).cache
        name (some t) method a2).ret = .jval w ∧
    (callWrappedK .ON Mem.empty name (some t) method a1).ret = .jval w := by
  have hkey2 : generateCacheKey name a2 (some t) = some k := by
    have h := hkey
    simp only [generateCacheKey] at h ⊢
    rw [← hsame]
    exact h
  have hcall1 := cacheMachine_on_miss_sync Mem.empty (some k) method a1 w rfl hm
  have h1 : callWrappedK .ON Mem.empty name (some t) method a1 =
      { ret := .jval w, cache := Mem.empty.set (some k) w, invoked := true,
        ops := [.hasOp (some k), .setOp (some k) w] } := by
    simp [callWrappedK, hkey, hcall1]
  have hget : (Mem.empty.set (some k) w).get (some k) = some w :=
    Mem.get_set_self Mem.empty (some k) w
  have hcall2 := cacheMachine_on_hit method a2 hget
  have h2 : callWrappedK .ON (Mem.empty.set (some k) w) name (some t) method a2 =
      { ret := readCachedResult w, cache := Mem.empty.set (some k) w, invoked := false,
        ops := [.hasOp (some k), .getOp (some k)] } := by
    simp [callWrappedK, hkey2, hcall2]
  rw [h1]
  simp [h2, readCached_plain w htag]

/-- Witness for C2: a transform dropping the volatile second argument makes
two calls differing only in it share one cache entry. -/
theorem c2_key_transform_shared_entry_witness :
    (callWrappedK .ON
        (callWrappedK .ON Mem.empty "get" (some (fun m as => ⟨m, as.take 1⟩))
          (fun as => .jval (as.headD .vUndefined)) [JVal.vNum 1, JVal.vNum 2]).cache
        "get" (some (fun m as => ⟨m, as.take 1⟩))
        (fun as => .jval (as.headD .vUndefined)) [JVal.vNum 1, JVal.vNum 3]).invoked = false ∧
    (callWrappedK .ON
        (callWrappedK .ON Mem.empty "get" (some (fun m as => ⟨m, as.take 1⟩))
          (fun as => .jval (as.headD .vUndefined)) [JVal.vNum 1, JVal.vNum 2]).cache
        "get" (some (fun m as => ⟨m, as.take 1⟩))
        (fun as => .jval (as.headD .vUndefined)) [JVal.vNum 1, JVal.vNum 3]).ret
      = .jval (.vNum 1) := by
  have h := c2_key_transform_shared_entry "get" (fun m as => ⟨m, as.take 1⟩)
    [JVal.vNum 1, JVal.vNum 2] [JVal.vNum 1, JVal.vNum 3]
    (fun as => .jval (as.headD .vUndefined)) (.vNum 1) "get:[1]" rfl rfl rfl rfl
  exact ⟨h.2.1, h.2.2.1⟩

/-- C3: mode gating. With OFF, N identical calls invoke the underlying
operation N times and never touch the backend. With UPDATE_ONLY, every
call invokes and stores, the key ends bound to the last-written value, and
a subsequent ON call against the same backend returns that value without
invoking. With READ_ONLY, a miss returns undefined without invoking, and
a hit returns the cached value without invoking. -/
theorem c3_mode_gating :
    (∀ (N : Nat) (name : String) (op : Nat → List JVal → RVal) (args : List JVal)
        (cache : Mem) (count : Nat),
      (runCalls .OFF name op (List.replicate N args) cache count).count = count + N ∧
      (runCalls .OFF name op (List.replicate N args) cache count).cache = cache ∧
      (runCalls .OFF name op (List.replicate N args) cache count).ops = []) ∧
    (∀ (N : Nat) (name : String) (f : Nat → JVal) (args : List JVal) (cache : Mem)
        (g : List JVal → RVal),
      isPromiseTagged (f N) = false →
      (runCalls .UPDATE_ONLY name (fun i _ => .jval (f i))
          (List.replicate (N + 1) args) cache 0).count = N + 1 ∧
      (runCalls .UPDATE_ONLY name (fun i _ => .jval (f i))
            (List.replicate (N + 1) args) cache 0).cache.get
          (generateCacheKey name args none) = some (f N) ∧
      (callWrapped .ON
          (runCalls .UPDATE_ONLY name (fun i _ => .jval (f i))
            (List.replicate (N + 1) args) cache 0).cache name g args).ret
        = .jval (f N) ∧
      (callWrapped .ON
          (runCalls .UPDATE_ONLY name (fun i _ => .jval (f i))
            (List.replicate (N + 1) args) cache 0).cache name g args).invoked
        = false) ∧
    (∀ (name : String) (g : List JVal → RVal) (args : List JVal) (cache : Mem),
      cache.has (generateCacheKey name args none) = false →
      (callWrapped .READ_ONLY cache name g args).ret = .jval .vUndefined ∧
      (callWrapped .READ_ONLY cache name g args).invoked = false) ∧
    (∀ (name : String) (g : List JVal → RVal) (args : List JVal) (cache : Mem) (v : JVal),
      cache.get (generateCacheKey name args none) = some v →
      isPromiseTagged v = false →
      (callWrapped .READ_ONLY cache name g args).ret = .jval v ∧
      (callWrapped .READ_ONLY cache name g args).invoked = false) := by
  refine ⟨runCalls_off, ?_, ?_, ?_⟩
  · intro N name f args cache g htag
    have hu := runCalls_upd N name f args cache 0
    simp only [Nat.zero_add] at hu
    have hget := hu.2
    have hcall := cacheMachine_on_hit g args hget
    refine ⟨by simpa using hu.1, hget, ?_, ?_⟩
    · simp [callWrapped, hcall, readCached_plain _ htag]
    · simp [callWrapped, hcall]
  · intro name g args cache hmiss
    have hcall := cacheMachine_ro_miss g args hmiss
    exact ⟨by simp [callWrapped, hcall], by simp [callWrapped, hcall]⟩
  · intro name g args cache v hget htag
    have hcall := cacheMachine_ro_hit g args hget
    exact ⟨by simp [callWrapped, hcall, readCached_plain _ htag],
      by simp [callWrapped, hcall]⟩

/-- Witness for C3 at concrete inputs for the UPDATE_ONLY and READ_ONLY
parts. -/
theorem c3_mode_gating_witness :
    (runCalls .UPDATE_ONLY "m" (fun i _ => .jval (.vNum i))
        (List.replicate 2 [JVal.vNum 7]) Mem.empty 0).cache.get
      (generateCacheKey "m" [JVal.vNum 7] none) = some (.vNum 1) ∧
    (callWrapped .READ_ONLY Mem.empty "m" (fun _ => .jval .vNull) [JVal.vNum 7]).ret
      = .jval .vUndefined ∧
    (callWrapped .READ_ONLY
        (Mem.empty.set (generateCacheKey "m" [JVal.vNum 7] none) (.vNum 3))
        "m" (fun _ => .jval .vNull) [JVal.vNum 7]).ret = .jval (.vNum 3) := by
  have h2 := c3_mode_gating.2.1 1 "m" (fun i => .vNum i) [JVal.vNum 7] Mem.empty
    (fun _ => .jval .vNull) rfl
  have h3 := c3_mode_gating.2.2.1 "m" (fun _ => .jval .vNull) [JVal.vNum 7]
    Mem.empty rfl
  have h4 := c3_mode_gating.2.2.2 "m" (fun _ => .jval .vNull) [JVal.vNum 7]
    (Mem.empty.set (generateCacheKey "m" [JVal.vNum 7] none) (.vNum 3)) (.vNum 3)
    (Mem.get_set_self Mem.empty (generateCacheKey "m" [JVal.vNum 7] none) (.vNum 3))
    rfl
  exact ⟨h2.2.1, h3.1, h4.1⟩

/-- C4: idempotent cache hit. In ON mode against a fresh in-memory
backend, two identical calls of a synchronous operation invoke it exactly
once and return the same value; and the concrete add scenario: add(2,3)
gives 5 invoking once, add(2,3) again gives 5 with the count still one,
add(3,4) gives 7 with the count two. -/
theorem c4_idempotent_cache_hit :
    (∀ (name : String) (f : Nat → JVal) (args : List JVal),
      isPromiseTagged (f 0) = false →
      (runCalls .ON name (fun i _ => .jval (f i)) [args, args] Mem.empty 0).count = 1 ∧
      (runCalls .ON name (fun i _ => .jval (f i)) [args, args] Mem.empty 0).rets
        = [.jval (f 0), .jval (f 0)]) ∧
    ((runCalls .ON "add" addOp
        [[.vNum 2, .vNum 3], [.vNum 2, .vNum 3], [.vNum 3, .vNum 4]] Mem.empty 0).count
      = 2 ∧
    (runCalls .ON "add" addOp
        [[.vNum 2, .vNum 3], [.vNum 2, .vNum 3], [.vNum 3, .vNum 4]] Mem.empty 0).rets
      = [.jval (.vNum 5), .jval (.vNum 5), .jval (.vNum 7)]) := by
  constructor
  · intro name f args htag
    have hc1 := cacheMachine_on_miss_sync Mem.empty (generateCacheKey name args none)
      (fun _ => RVal.jval (f 0)) args (f 0) rfl rfl
    have hget : (Mem.empty.set (generateCacheKey name args none) (f 0)).get
        (generateCacheKey name args none) = some (f 0) :=
      Mem.get_set_self Mem.empty (generateCacheKey name args none) (f 0)
    have hc2 := cacheMachine_on_hit (fun _ => RVal.jval (f 1)) args hget
    constructor <;>
      simp [runCalls, callWrapped, hc1, hc2, readCached_plain _ htag]
  · exact ⟨rfl, rfl⟩

/-- Witness for C4 at a concrete operation and argument list. -/
theorem c4_idempotent_cache_hit_witness :
    (runCalls .ON "m" (fun i _ => .jval (.vNum i)) [[JVal.vNum 9], [JVal.vNum 9]]
        Mem.empty 0).count = 1 ∧
    (runCalls .ON "m" (fun i _ => .jval (.vNum i)) [[JVal.vNum 9], [JVal.vNum 9]]
        Mem.empty 0).rets = [.jval (.vNum 0), .jval (.vNum 0)] :=
  c4_idempotent_cache_hit.1 "m" (fun i => .vNum i) [JVal.vNum 9] rfl

/-- C5: key determinism. For all argument lists that are deeply equal up
to object-property order (equal canonical forms: keys sorted recursively,
array order preserved), the generated cache keys are equal. -/
theorem c5_key_determinism (m : String) (a1 a2 : List JVal)
    (h : canonItems a1 = canonItems a2) :
    generateCacheKey m a1 none = generateCacheKey m a2 none := by
  have hs : serialize (.vArr a1) = serialize (.vArr a2) := by
    have e1 := serialize_canon (.vArr a1)
    have e2 := serialize_canon (.vArr a2)
    rw [show canon (.vArr a1) = .vArr (canonItems a1) from rfl] at e1
    rw [show canon (.vArr a2) = .vArr (canonItems a2) from rfl] at e2
    rw [← e1, ← e2, h]
  simp only [generateCacheKey]
  rw [hs]

/-- Witness for C5: two objects with the same properties in different
definition order generate the same key. -/
theorem c5_key_determinism_witness :
    canonItems [JVal.vObj [("a", .vNum 1), ("b", .vNum 2)]]
      = canonItems [JVal.vObj [("b", .vNum 2), ("a", .vNum 1)]] ∧
    generateCacheKey "m" [JVal.vObj [("a", .vNum 1), ("b", .vNum 2)]] none
      = generateCacheKey "m" [JVal.vObj [("b", .vNum 2), ("a", .vNum 1)]] none :=
  ⟨rfl, c5_key_determinism "m" _ _ rfl⟩

/-- C6 counterexample: null and undefined as arguments are deeply unequal
yet generate the same cache key, because undefined serializes as null
inside the argument array. -/
theorem c6_null_undefined_same_key :
    generateCacheKey "m" [JVal.vNull] none = generateCacheKey "m" [JVal.vUndefined] none ∧
    JVal.vNull ≠ JVal.vUndefined :=
  ⟨rfl, fun h => JVal.noConfusion h⟩

/-- C6 amended: argument lists with distinct serializations generate
distinct keys for the same method; null and the empty string, and
undefined and the empty string, generate distinct keys, while null and
undefined collide. -/
theorem c6_key_sensitivity_amended :
    (∀ (m : String) (a1 a2 : List JVal) (s1 s2 : String),
      serialize (.vArr a1) = .ok s1 → serialize (.vArr a2) = .ok s2 → s1 ≠ s2 →
      generateCacheKey m a1 none ≠ generateCacheKey m a2 none) ∧
    generateCacheKey "m" [JVal.vNull] none ≠ generateCacheKey "m" [JVal.vStr ""] none ∧
    generateCacheKey "m" [JVal.vUndefined] none ≠ generateCacheKey "m" [JVal.vStr ""] none := by
  refine ⟨?_, by decide, by decide⟩
  intro m a1 a2 s1 s2 h1 h2 hne heq
  simp only [generateCacheKey, h1, h2, Option.some.injEq] at heq
  apply hne
  have hd := congrArg String.data heq
  simp only [String.data_append] at hd
  exact String.ext (List.append_cancel_left hd)

/-- Witness for C6 amended at two concrete distinct serializations. -/
theorem c6_key_sensitivity_amended_witness :
    generateCacheKey "m" [JVal.vNull] none ≠ generateCacheKey "m" [JVal.vNum 1] none :=
  c6_key_sensitivity_amended.1 "m" [JVal.vNull] [JVal.vNum 1] "[null]" "[1]"
    rfl rfl (by decide)

/-- C7 counterexample: a whitespace-surrounded mode name is not trimmed
before matching, so it is treated as unrecognized and the mode resolves to
the default ON instead of the named mode. -/
theorem c7_whitespace_not_trimmed :
    resolveMode none (some " off ") = .ON ∧
    jsToUpper (jsTrim " off ") = "OFF" ∧
    parseCacheMode (some " off ") = none := by
  exact ⟨by decide, by decide, by decide⟩

/-- C7 amended: an explicit mode always wins; with no explicit mode, a
nonempty, non-whitespace environment signal equal to a mode name after
case folding (without trimming) resolves to that mode; an unrecognized or
missing signal resolves to ON. -/
theorem c7_mode_resolution_amended :
    (∀ (m : CacheMode) (env : Option String), resolveMode (some m) env = m) ∧
    resolveMode none none = .ON ∧
    (∀ (v : String) (m : CacheMode), v ≠ "" → jsTrim v ≠ "" →
      jsToUpper v = cacheModeName m → resolveMode none (some v) = m) ∧
    (∀ v : String, jsToUpper v ≠ "ON" → jsToUpper v ≠ "OFF" →
      jsToUpper v ≠ "UPDATE_ONLY" → jsToUpper v ≠ "READ_ONLY" →
      resolveMode none (some v) = .ON) := by
  refine ⟨fun m env => rfl, rfl, ?_, ?_⟩
  · intro v m h1 h2 h3
    cases m <;>
      simp [resolveMode, parseCacheMode, h1, h2, h3, cacheModeName] at h3 ⊢ <;>
        simp [resolveMode, parseCacheMode, h1, h2, h3]
  · intro v h1 h2 h3 h4
    by_cases hv : v = "" <;> by_cases ht : jsTrim v = "" <;>
      simp [resolveMode, parseCacheMode, hv, ht, h1, h2, h3, h4]

/-- Witness for C7 amended: mixed case resolves, explicit mode wins. -/
theorem c7_mode_resolution_amended_witness :
    resolveMode none (some "Read_Only") = .READ_ONLY ∧
    resolveMode (some .OFF) (some "on") = .OFF :=
  ⟨c7_mode_resolution_amended.2.2.1 "Read_Only" .READ_ONLY (by decide) (by decide)
      (by decide),
    c7_mode_resolution_amended.1 .OFF (some "on")⟩

/-- C9: at a state where the entry file for key k exists but its removal
fails, FileSystemCache delete propagates the exception instead of
returning false, while clear at the same state swallows the failure,
keeps the directory existing and raises nothing. -/
theorem c9_delete_propagates_failure :
    fsDelete { files := [hashName "k"], stuck := [hashName "k"], dirLive := true } "k"
      = .error () ∧
    (fsClear { files := [hashName "k"], stuck := [hashName "k"], dirLive := true }).dirLive
      = true ∧
    (fsClear { files := [hashName "k"], stuck := [hashName "k"], dirLive := true }).files
      = [hashName "k"] :=
  ⟨rfl, rfl, rfl⟩

/-- C8: asynchronous failures are never cached. In every mode, a call
whose underlying operation rejects leaves the backend unchanged and
writes nothing; in ON mode with the key not cached, three identical calls
invoke the operation three times, all reject with the original error, and
the backend still holds nothing for the key. -/
theorem c8_rejections_never_cached :
    (∀ (mode : CacheMode) (cache : Mem) (name e : String) (args : List JVal),
      (callWrapped mode cache name (fun _ => .promiseRejected e) args).cache = cache ∧
      ((callWrapped mode cache name (fun _ => .promiseRejected e) args).ops.all
          (fun o => !isWrite o)) = true) ∧
    (∀ (cache : Mem) (name e : String) (args : List JVal),
      cache.has (generateCacheKey name args none) = false →
      (runCalls .ON name (fun _ _ => .promiseRejected e)
          (List.replicate 3 args) cache 0).count = 3 ∧
      (runCalls .ON name (fun _ _ => .promiseRejected e)
          (List.replicate 3 args) cache 0).rets
        = [.promiseRejected e, .promiseRejected e, .promiseRejected e] ∧
      (runCalls .ON name (fun _ _ => .promiseRejected e)
          (List.replicate 3 args) cache 0).cache = cache) := by
  refine ⟨callWrapped_rej_preserves, ?_⟩
  intro cache name e args hmiss
  have h := runCalls_rej_on 3 name e args cache 0 hmiss
  exact ⟨by simpa using h.1, by simpa using h.2.2, h.2.1⟩

/-- Witness for C8 against a fresh backend. -/
theorem c8_rejections_never_cached_witness :
    (runCalls .ON "m" (fun _ _ => .promiseRejected "x")
        (List.replicate 3 [JVal.vNum 1]) Mem.empty 0).count = 3 ∧
    (runCalls .ON "m" (fun _ _ => .promiseRejected "x")
        (List.replicate 3 [JVal.vNum 1]) Mem.empty 0).cache = Mem.empty := by
  have h := c8_rejections_never_cached.2 Mem.empty "m" "x" [JVal.vNum 1] rfl
  exact ⟨h.1, h.2.2⟩

/-- C10: across any sequence of wrapped calls, in every mode, every
backend operation the wrapper performs is has, get or set — it never
invokes delete or clear. -/
theorem c10_wrapper_never_deletes (mode : CacheMode) (name : String)
    (op : Nat → List JVal → RVal) (calls : List (List JVal)) (cache : Mem)
    (count : Nat) :
    ((runCalls mode name op calls cache count).ops.all opKept) = true :=
  runCalls_ops_kept calls mode name op cache count

end FastForward
